import Mathlib

/-!
Shallow embedding of the relational-algebra engine of the repository
(`Project 1/Fileread.py` and `Project 1/newonetest.py`).

Python strings are embedded as `List Char`, in-memory relations as a
structure of an attribute list and a row list, the relation dictionary as an
association list in insertion order, and code that can raise an exception as
`Option`/`Except` valued functions (with `none` / `.error` for a raised
exception).  Python `float` comparisons are modelled over `ℚ` by a decimal
literal reader (`parseFloat`); scientific notation, `inf` and `nan` are not
modelled, and no theorem below depends on them.
-/

/-- Python strings, embedded as character lists. -/
abbrev Str := List Char

/-- Coerce a Lean string literal into the embedding. -/
def str (s : String) : Str := s.data

/-- A single-quote character (used by `strip("'")` on condition literals). -/
def SQUOTE : Char := Char.ofNat 39

/-- The whitespace test of Python `str.strip` / `str.split` (space, tab,
newline, carriage return; the rarer vertical-tab and form-feed characters are
not modelled and never occur in query text). -/
def isSpace (c : Char) : Bool :=
  c == ' ' || c == Char.ofNat 9 || c == Char.ofNat 10 || c == Char.ofNat 13

/-- `s.strip(chars)`: drop the characters satisfying `p` from both ends. -/
def pstrip (p : Char → Bool) (s : Str) : Str :=
  ((s.dropWhile p).reverse.dropWhile p).reverse

/-- Python `s.strip()`. -/
def trim (s : Str) : Str := pstrip isSpace s

/-- Python `s.strip("'")` on condition literals. -/
def stripQuotes (s : Str) : Str := pstrip (fun c => c == SQUOTE) s

/-- Split a character list at every character satisfying `p`; mirrors Python
`s.split(sep)` for a one-character separator when `p` tests that separator.
Always returns a nonempty list of chunks. -/
def psplit (p : Char → Bool) : Str → List Str
  | [] => [[]]
  | c :: rest =>
    match psplit p rest with
    | [] => [[c]]
    | h :: t => if p c then [] :: h :: t else (c :: h) :: t

/-- Python `s.split(sep)` for a one-character separator `sep`. -/
def pysplit (sep : Char) (s : Str) : List Str := psplit (fun c => c == sep) s

/-- Python `s.split()` (split on whitespace runs, dropping empty chunks). -/
def wsplit (s : Str) : List Str :=
  (psplit isSpace s).filter (fun x => !x.isEmpty)

/-- Python `s.split(sep, 1)` for a one-character separator: split at the first
occurrence only; `none` when the separator does not occur. -/
def splitOnce (sep : Char) : Str → Option (Str × Str)
  | [] => none
  | c :: rest =>
    if c == sep then some ([], rest)
    else (splitOnce sep rest).map (fun p => (c :: p.1, p.2))

/-- Fuelled worker for splitting on a multi-character separator. -/
def splitSubFuel (pat : Str) : Nat → Str → List Str
  | 0, s => [s]
  | _ + 1, [] => [[]]
  | fuel + 1, c :: rest =>
    if pat.isPrefixOf (c :: rest) then
      [] :: splitSubFuel pat fuel (List.drop (pat.length - 1) rest)
    else
      match splitSubFuel pat fuel rest with
      | [] => [[c]]
      | h :: t => (c :: h) :: t

/-- Python `s.split(pat)` for a multi-character separator `pat` (the fuel
`s.length + 1` is enough for every occurrence). -/
def splitSub (pat s : Str) : List Str := splitSubFuel pat (s.length + 1) s

/-- Python `pat in s` (substring containment). -/
def containsSub (pat s : Str) : Bool :=
  s.tails.any (fun t => pat.isPrefixOf t)

/-- Value of a digit string, most significant first. -/
def digitsToNat (s : Str) : Nat := s.foldl (fun n c => n * 10 + (c.toNat - 48)) 0

/-- Python `float(s)` on decimal literals, modelled over `ℚ`: optional
whitespace and sign, then digits with at most one point.  `none` models the
`ValueError` raised on anything else. -/
def parseFloat (s : Str) : Option ℚ :=
  let t := trim s
  let (sign, u) : ℚ × Str :=
    match t with
    | c :: rest =>
      if c == '-' then (-1, rest) else if c == '+' then (1, rest) else (1, t)
    | [] => (1, t)
  match pysplit '.' u with
  | [ip] =>
    if !ip.isEmpty && ip.all Char.isDigit then some (sign * digitsToNat ip) else none
  | [ip, fp] =>
    if (!ip.isEmpty || !fp.isEmpty) && ip.all Char.isDigit && fp.all Char.isDigit then
      some (sign * ((digitsToNat ip : ℚ) + (digitsToNat fp : ℚ) / (10 ^ fp.length)))
    else none
  | _ => none

/-- A stored relation: the attribute header and the data rows
(`self.relations[name] = {'attributes': ..., 'data': ...}`). -/
structure DBRel where
  attributes : List Str
  data : List (List Str)
deriving DecidableEq

instance : Inhabited DBRel := ⟨⟨[], []⟩⟩

/-- The `self.relations` dictionary, as an association list in insertion
order (Python dictionaries preserve insertion order). -/
abbrev DB := List (Str × DBRel)

/-- A materialised query result: header row followed by data rows. -/
abbrev Table := List (List Str)

/-- Dictionary lookup `self.relations[name]`. -/
def lookup (db : DB) (name : Str) : Option DBRel :=
  (db.find? (fun p => p.1 == name)).map (fun p => p.2)

/-- A Python list comprehension `[row for row in l if p(row)]` whose filter
may raise (`p a = none`): the first exception aborts the whole comprehension. -/
def filterOpt (p : α → Option Bool) : List α → Option (List α)
  | [] => some []
  | a :: as =>
    match p a with
    | none => none
    | some true => (filterOpt p as).map (a :: ·)
    | some false => filterOpt p as

/-- `evaluate_condition(value, operator, condition_value)`; the method is
textually identical in `Fileread.py` and `newonetest.py`, so it is embedded
once.  `>` and `<` coerce both sides through `float` (a failed coercion is a
raised `ValueError`, modelled by `none`); `=` compares text; every other
operator string falls through to `return False`. -/
def evaluate_condition (value op cval : Str) : Option Bool :=
  if op = str ">" then
    match parseFloat value, parseFloat cval with
    | some a, some b => some (decide (b < a))
    | _, _ => none
  else if op = str "<" then
    match parseFloat value, parseFloat cval with
    | some a, some b => some (decide (a < b))
    | _, _ => none
  else if op = str "=" then some (decide (value = cval))
  else some false

/-- The operand extraction `query.split('(')[-1].split(')')[0].strip()`
shared by `selection`, `projection`, `crossproduct` and `union`. -/
def extract_operand (q : Str) : Str :=
  trim ((pysplit ')' ((pysplit '(' q).getLastD [])).headD [])

/-- The payload extraction `query.split('{')[1].split('}')[0].strip()`;
`none` models the `IndexError` raised when the line has no `{`. -/
def extract_braces (q : Str) : Option Str :=
  match pysplit '{' q with
  | _ :: c :: _ => some (trim ((pysplit '}' c).headD []))
  | _ => none

/-- The row block of a cross product:
`[left_row + right_row for left_row in left for right_row in right]`. -/
def cross_rows (L R : Table) : Table :=
  L.flatMap (fun l => R.map (fun r => l ++ r))

namespace Fileread

/-- `SimpleDB.get_attribute_index` of `Fileread.py`: scan **every** stored
relation in dictionary (insertion) order and return the attribute's index
within the first relation whose attribute list contains it; `none` models the
`ValueError` raised only when no stored relation contains the attribute. -/
def get_attribute_index : DB → Str → Option Nat
  | [], _ => none
  | (_, rel) :: rest, attr =>
    if attr ∈ rel.attributes then some (rel.attributes.indexOf attr)
    else get_attribute_index rest attr

/-- `SimpleDB.parse_conditions` of `Fileread.py`: split on the literal token
`AND` when it occurs anywhere in the string, otherwise on `OR`, otherwise the
whole string is a single predicate; each chunk is stripped. -/
def parse_conditions (s : Str) : List Str :=
  if containsSub (str "AND") s then (splitSub (str "AND") s).map trim
  else if containsSub (str "OR") s then (splitSub (str "OR") s).map trim
  else [s]

/-- One loop iteration of `SimpleDB.evaluate_conditions` on a nonempty
predicate chunk: unpack `attr operator value` (a `ValueError` when the chunk
does not split into exactly three tokens), strip quotes from the literal,
resolve the column index, and compare `row[col_index]`. -/
def eval_one (db : DB) (row : List Str) (cond : Str) : Option Bool :=
  match wsplit cond with
  | [a, op, v] =>
    match get_attribute_index db a with
    | none => none
    | some i =>
      match row.get? i with
      | none => none
      | some cell => evaluate_condition cell op (stripQuotes v)
  | _ => none

/-- `SimpleDB.evaluate_conditions` of `Fileread.py`: evaluate every nonempty
predicate chunk and return the conjunction (`all(results)`); any raised
exception (`none`) propagates. -/
def evaluate_conditions (db : DB) (row : List Str) : List Str → Option Bool
  | [] => some true
  | c :: rest =>
    if c = [] then evaluate_conditions db row rest
    else
      match eval_one db row c with
      | none => none
      | some b =>
        match evaluate_conditions db row rest with
        | none => none
        | some b2 => some (b && b2)

/-- `SimpleDB.selection` of `Fileread.py`: extract the operand and the
condition, look the relation up, filter its rows with `evaluate_conditions`,
and return the header row followed by the kept rows. -/
def selection (db : DB) (q : Str) : Except Str Table :=
  let rname := extract_operand q
  match extract_braces q with
  | none => .error (str "IndexError")
  | some cond =>
    match lookup db rname with
    | none => .error (str "Relation not found.")
    | some rel =>
      match filterOpt (fun row => evaluate_conditions db row (parse_conditions cond)) rel.data with
      | none => .error (str "exception while evaluating condition")
      | some filtered => .ok (rel.attributes :: filtered)

/-- The result construction of `SimpleDB.crossproduct` of `Fileread.py` on
two looked-up relations: `[combined_attributes] + combined_data`. -/
def crossproduct_core (A B : DBRel) : Table :=
  (A.attributes ++ B.attributes) :: cross_rows A.data B.data

/-- `SimpleDB.crossproduct` of `Fileread.py`: split the operand portion on
`*`, require exactly two names, look both relations up, and emit the
concatenated header followed by the Cartesian product of the rows. -/
def crossproduct (db : DB) (q : Str) : Except Str Table :=
  match pysplit '*' (extract_operand q) with
  | [l, r] =>
    match lookup db (trim l) with
    | none => .error (str "Relation not found.")
    | some L =>
      match lookup db (trim r) with
      | none => .error (str "Relation not found.")
      | some R => .ok (crossproduct_core L R)
  | _ => .error (str "Cross product requires exactly two relations.")

/-- The projection loop that validates each requested attribute against the
source header and collects `rel_attributes.index(attr)`; `none` models the
`ValueError` raised on the first absent attribute. -/
def col_indices (relAttrs : List Str) : List Str → Option (List Nat)
  | [] => some []
  | a :: rest =>
    if a ∈ relAttrs then (col_indices relAttrs rest).map (relAttrs.indexOf a :: ·)
    else none

/-- `[row[i] for i in col_indices]`; `none` models an `IndexError` on a row
shorter than a requested index. -/
def project_row (row : List Str) : List Nat → Option (List Str)
  | [] => some []
  | i :: rest =>
    match row.get? i with
    | none => none
    | some v => (project_row row rest).map (v :: ·)

/-- `[[row[i] for i in col_indices] for row in data]`. -/
def project_rows (idx : List Nat) : Table → Option Table
  | [] => some []
  | r :: rs =>
    match project_row r idx with
    | none => none
    | some pr => (project_rows idx rs).map (pr :: ·)

/-- `SimpleDB.projection` of `Fileread.py`: extract the operand and the
attribute list; when the operand contains `*` evaluate it as a cross product
first, otherwise look the single relation up; then project the requested
columns and return the requested attribute list as the header. -/
def projection (db : DB) (q : Str) : Except Str Table :=
  let relation_query := extract_operand q
  match extract_braces q with
  | none => .error (str "IndexError")
  | some attrText =>
    let attributes := (pysplit ',' attrText).map trim
    let src : Except Str (List Str × Table) :=
      if '*' ∈ relation_query then
        match crossproduct db relation_query with
        | .error e => .error e
        | .ok t => .ok (t.headD [], t.tail)
      else
        match lookup db (trim relation_query) with
        | none => .error (str "Relation not found.")
        | some rel => .ok (rel.attributes, rel.data)
    match src with
    | .error e => .error e
    | .ok (relAttrs, data) =>
      match col_indices relAttrs attributes with
      | none => .error (str "Attribute not found in relation.")
      | some idx =>
        match project_rows idx data with
        | none => .error (str "IndexError")
        | some projected => .ok (attributes :: projected)

/-- The schema check and row combination of `SimpleDB.union` of `Fileread.py`
on two already looked-up relations.  Python removes duplicates through
`list(set(...))`, whose iteration order is unspecified; the embedding fixes
`List.dedup` as a deterministic representative, and the theorems below state
only set-level facts about the rows. -/
def union_core (A B : DBRel) : Except Str Table :=
  if A.attributes ≠ B.attributes then
    .error (str "Union requires both relations to have the same attributes.")
  else .ok (A.attributes :: (A.data ++ B.data).dedup)

/-- `SimpleDB.union` of `Fileread.py`: split the operand portion on `U`,
require exactly two names, look both relations up, then `union_core`. -/
def union_q (db : DB) (q : Str) : Except Str Table :=
  match pysplit 'U' (extract_operand q) with
  | [l, r] =>
    match lookup db (trim l) with
    | none => .error (str "Relation not found.")
    | some L =>
      match lookup db (trim r) with
      | none => .error (str "Relation not found.")
      | some R => union_core L R
  | _ => .error (str "Union requires exactly two relations.")

/-- Lines 217-242 of `Fileread.py` (`SimpleDB.difference` after both
subqueries were evaluated): `None` or empty subquery results yield `None`;
differing header widths raise; otherwise the rows of the left table that do
not occur in the right table (computed through Python sets, so deduplicated
and in unspecified order - the embedding again fixes a deterministic
representative and the theorems state set-level facts), under the left
header, which is kept even when no row remains. -/
def difference_eval : Option Table → Option Table → Except Str (Option Table)
  | none, _ => .ok none
  | _, none => .ok none
  | some [], _ => .ok none
  | _, some [] => .ok none
  | some (lh :: ld), some (rh :: rd) =>
    if lh.length ≠ rh.length then
      .error (str "The two relations must have the same number of columns for the difference operation.")
    else
      let diff := ld.dedup.filter (fun row => decide (row ∉ rd))
      if diff.isEmpty then .ok (some [lh]) else .ok (some (lh :: diff))

/-- The mutually recursive pair `evaluate_query` / `difference` of
`Fileread.py`, made structural on a fuel bound on the nesting depth.  The
first component is `evaluate_query` (every exception is caught and turned
into `None`); the second is `difference`, which splits the query on the
separator `) - (`, rebuilds the two subquery strings, evaluates them with
`evaluate_query`, and applies `difference_eval`. -/
def engine : Nat → (DB → Str → Option Table) × (DB → Str → Except Str (Option Table))
  | 0 => (fun _ _ => none, fun _ _ => .error (str "recursion limit"))
  | fuel + 1 =>
    ( fun db q0 =>
        let q := trim q0
        if (str "SELE").isPrefixOf q then (selection db q).toOption
        else if (str "PROJ").isPrefixOf q then (projection db q).toOption
        else if (str "X").isPrefixOf q then (crossproduct db q).toOption
        else if (str "JOIN").isPrefixOf q then none
        else if (str "*").isPrefixOf q then none
        else if (str "U").isPrefixOf q then (union_q db q).toOption
        else if (str "-").isPrefixOf q then
          match (engine fuel).2 db q with
          | .ok r => r
          | .error _ => none
        else none,
      fun db q =>
        match splitSub (str ") - (") q with
        | [l, r] =>
          (engine fuel).1 db (trim l ++ [')']) |> fun L =>
          (engine fuel).1 db ('(' :: trim r) |> fun R =>
          difference_eval L R
        | _ => .error (str "Invalid difference query format") )

/-- `SimpleDB.evaluate_query` of `Fileread.py` (fuelled). -/
def evaluate_query (fuel : Nat) (db : DB) (q : Str) : Option Table :=
  (engine fuel).1 db q

/-- `SimpleDB.difference` of `Fileread.py` (fuelled). -/
def difference (fuel : Nat) (db : DB) (q : Str) : Except Str (Option Table) :=
  (engine fuel).2 db q

/-- The per-line dispatch of `SimpleDB.process_queries_from_file` of
`Fileread.py` together with its surrounding `try/except`: a result on
success, the captured error on failure, and `.ok none` (`result = None`) for
an unrecognized line. -/
def dispatch (fuel : Nat) (db : DB) (q : Str) : Except Str (Option Table) :=
  if (str "SELE").isPrefixOf q then (selection db q).map some
  else if (str "PROJ").isPrefixOf q then (projection db q).map some
  else if (str "X").isPrefixOf q then (crossproduct db q).map some
  else if (str "JOIN").isPrefixOf q then .error (str "AttributeError")
  else if (str "*").isPrefixOf q then .error (str "AttributeError")
  else if (str "U").isPrefixOf q then (union_q db q).map some
  else if (str "-").isPrefixOf q then difference fuel db q
  else if (str ",").isPrefixOf q then .error (str "AttributeError")
  else if (str "OR").isPrefixOf q then .error (str "AttributeError")
  else .ok none

/-- The batch loop of `SimpleDB.process_queries_from_file` of `Fileread.py`:
strip each line, evaluate it with every exception captured, and append one
`(query, outcome)` entry per line to the report list. -/
def process_queries (fuel : Nat) (db : DB) (lines : List Str) :
    List (Str × Except Str (Option Table)) :=
  lines.map (fun l => (trim l, dispatch fuel db (trim l)))

end Fileread

namespace Newonetest

/-- `SimpleDB.selection` of `newonetest.py`: extract the operand and the
condition, look the relation up, unpack the single predicate, check the
attribute against **the source relation's own** attribute list (raising when
absent), and return the kept rows **without** a header row. -/
def selection (db : DB) (q : Str) : Except Str Table :=
  let rname := extract_operand q
  match extract_braces q with
  | none => .error (str "IndexError")
  | some cond =>
    match lookup db rname with
    | none => .error (str "Relation not found.")
    | some rel =>
      match wsplit cond with
      | [a, op, v0] =>
        if a ∈ rel.attributes then
          match filterOpt (fun row =>
              match row.get? (rel.attributes.indexOf a) with
              | none => none
              | some cell => evaluate_condition cell op (stripQuotes v0)) rel.data with
          | none => .error (str "exception while evaluating condition")
          | some filtered => .ok filtered
        else .error (str "Attribute not found in relation.")
      | _ => .error (str "ValueError: not enough values to unpack")

/-- `SimpleDB.projection` of `newonetest.py`: like the `Fileread.py` version
but with no cross-product branch and **without** a header row in the result. -/
def projection (db : DB) (q : Str) : Except Str Table :=
  let rname := extract_operand q
  match extract_braces q with
  | none => .error (str "IndexError")
  | some attrText =>
    let attributes := (pysplit ',' attrText).map trim
    match lookup db rname with
    | none => .error (str "Relation not found.")
    | some rel =>
      match Fileread.col_indices rel.attributes attributes with
      | none => .error (str "Attribute not found in relation.")
      | some idx =>
        match Fileread.project_rows idx rel.data with
        | none => .error (str "IndexError")
        | some projected => .ok projected

/-- Line 163 of `newonetest.py`, the row combination of `SimpleDB.union`:
`left_result + [row for row in right_result if row not in left_result]`.
No schema comparison of any kind is performed. -/
def union_merge (l r : Table) : Table :=
  l ++ r.filter (fun row => decide (row ∉ l))

/-- `SimpleDB.execute_query` of `newonetest.py`, made structural on a fuel
bound on the nesting depth: strip one enclosing parenthesis pair; any query
containing the letter `U` is a union (split once on `U`, both halves
evaluated recursively and merged); otherwise any query containing `-` calls
`self.difference(left, right)`, which raises a `TypeError` because the method
takes a single argument; then prefix dispatch to selection / projection, a
raised `AttributeError` for the undefined `crossproduct`, and `[]` for
anything else. -/
def engine : Nat → DB → Str → Except Str Table
  | 0, _, _ => .error (str "recursion limit")
  | fuel + 1, db, q0 =>
    let q := if q0.head? = some '(' ∧ q0.getLast? = some ')' then trim ((q0.drop 1).dropLast) else q0
    if 'U' ∈ q then
      match splitOnce 'U' q with
      | some (l, r) =>
        match engine fuel db (trim l) with
        | .error e => .error e
        | .ok L =>
          match engine fuel db (trim r) with
          | .error e => .error e
          | .ok R => .ok (union_merge L R)
      | none => .error (str "ValueError: not enough values to unpack")
    else if '-' ∈ q then .error (str "TypeError: difference takes 2 positional arguments but 3 were given")
    else if (str "SELE").isPrefixOf q then selection db q
    else if (str "PROJ").isPrefixOf q then projection db q
    else if (str "X").isPrefixOf q then .error (str "AttributeError: no attribute crossproduct")
    else .ok []

/-- `SimpleDB.execute_query` of `newonetest.py` (fuelled). -/
def execute_query (fuel : Nat) (db : DB) (q : Str) : Except Str Table :=
  engine fuel db q

/-- `SimpleDB.union` of `newonetest.py` (lines 158-164): evaluate both
operand query strings with `execute_query` and merge with `union_merge`. -/
def union (fuel : Nat) (db : DB) (lq rq : Str) : Except Str Table :=
  match execute_query fuel db lq with
  | .error e => .error e
  | .ok L =>
    match execute_query fuel db rq with
    | .error e => .error e
    | .ok R => .ok (union_merge L R)

/-- The batch loop of `SimpleDB.process_queries_from_file` of
`newonetest.py`: strip each line, evaluate it with every exception captured,
and append one `(query, outcome)` entry per line to the report list. -/
def process_queries (fuel : Nat) (db : DB) (lines : List Str) :
    List (Str × Except Str Table) :=
  lines.map (fun l => (trim l, execute_query fuel db (trim l)))

end Newonetest

/-- Modelled from the spec: the extraction the specification claims for
Select/Project lines, "everything between `(` and the **last** `)` in the
line", i.e. the substring between the first `(` and the last `)`.  Declared
only to be compared with the source's `extract_operand`. -/
def spec_first_to_last (q : Str) : Str :=
  let afterFirst := (q.dropWhile (fun c => !(c == '('))).drop 1
  ((afterFirst.reverse.dropWhile (fun c => !(c == ')'))).drop 1).reverse

/-! ## Concrete fixtures used by witnesses and counterexamples -/

/-- The `EMP` relation of the specification's end-to-end scenario. -/
def relEMP : DBRel :=
  ⟨[str "id", str "name", str "salary"],
   [[str "1", str "Al", str "50"], [str "2", str "Bo", str "90"]]⟩

/-- The `DEPT` relation of the specification's end-to-end scenario. -/
def relDEPT : DBRel := ⟨[str "id", str "dname"], [[str "1", str "Eng"]]⟩

/-- A store holding `EMP` and `DEPT`. -/
def dbMain : DB := [(str "EMP", relEMP), (str "DEPT", relDEPT)]

/-- A one-column relation whose only attribute is `x`. -/
def relX : DBRel := ⟨[str "x"], [[str "v"]]⟩

/-- A one-column relation whose only attribute is `y`. -/
def relY : DBRel := ⟨[str "y"], []⟩

/-- A store holding `A = relX` and `B = relY`; the attribute `y` occurs in
`B` only. -/
def dbXY : DB := [(str "A", relX), (str "B", relY)]

/-! ## Helper lemmas -/

theorem filterOpt_sublist {α} {p : α → Option Bool} {l : List α} :
    ∀ {r : List α}, filterOpt p l = some r → r.Sublist l := by
  induction l with
  | nil =>
    intro r h
    simp only [filterOpt, Option.some_inj] at h
    subst h
    simp
  | cons a as ih =>
    intro r h
    cases hp : p a with
    | none => simp [filterOpt, hp] at h
    | some b =>
      cases b
      · simp only [filterOpt, hp] at h
        exact (ih h).cons a
      · simp only [filterOpt, hp, Option.map_eq_some'] at h
        obtain ⟨r2, hr2, rfl⟩ := h
        exact (ih hr2).cons₂ a

theorem filterOpt_mem {α} {p : α → Option Bool} {l : List α} :
    ∀ {r : List α}, filterOpt p l = some r → ∀ a ∈ r, p a = some true := by
  induction l with
  | nil =>
    intro r h
    simp only [filterOpt, Option.some_inj] at h
    subst h
    simp
  | cons a as ih =>
    intro r h
    cases hp : p a with
    | none => simp [filterOpt, hp] at h
    | some b =>
      cases b
      · simp only [filterOpt, hp] at h
        exact ih h
      · simp only [filterOpt, hp, Option.map_eq_some'] at h
        obtain ⟨r2, hr2, rfl⟩ := h
        intro x hx
        rcases List.mem_cons.mp hx with rfl | hx2
        · exact hp
        · exact ih hr2 x hx2

theorem filterOpt_all_false {α} {p : α → Option Bool} {l : List α}
    (h : ∀ a ∈ l, p a = some false) : filterOpt p l = some [] := by
  induction l with
  | nil => simp [filterOpt]
  | cons a as ih =>
    have ha := h a (by simp)
    simp only [filterOpt, ha]
    exact ih (fun x hx => h x (by simp [hx]))

theorem evaluate_conditions_all {db : DB} {row : List Str} :
    ∀ {L : List Str} {b : Bool}, Fileread.evaluate_conditions db row L = some b →
      (b = true ↔ ∀ c ∈ L, c ≠ [] → Fileread.eval_one db row c = some true) := by
  intro L
  induction L with
  | nil =>
    intro b h
    simp only [Fileread.evaluate_conditions, Option.some_inj] at h
    subst h
    simp
  | cons c rest ih =>
    intro b h
    by_cases hc : c = []
    · rw [Fileread.evaluate_conditions, if_pos hc] at h
      rw [ih h, List.forall_mem_cons]
      subst hc
      simp
    · rw [Fileread.evaluate_conditions, if_neg hc] at h
      cases h1 : Fileread.eval_one db row c with
      | none => rw [h1] at h; cases h
      | some b1 =>
        rw [h1] at h
        cases h2 : Fileread.evaluate_conditions db row rest with
        | none => rw [h2] at h; cases h
        | some b2 =>
          rw [h2] at h
          simp only [Option.some_inj] at h
          subst h
          rw [List.forall_mem_cons, Bool.and_eq_true, ih h2]
          simp [h1, hc]

theorem cross_rows_length (L R : Table) :
    (cross_rows L R).length = L.length * R.length := by
  induction L with
  | nil => simp [cross_rows]
  | cons l L ih =>
    have hsplit : cross_rows (l :: L) R = R.map (l ++ ·) ++ cross_rows L R := by
      simp [cross_rows, List.flatMap_cons]
    rw [hsplit, List.length_append, List.length_map, ih, List.length_cons]
    ring

theorem cross_rows_get (L R : Table) :
    ∀ (i j : Nat) (hi : i < L.length) (hj : j < R.length),
      (cross_rows L R).get? (i * R.length + j)
        = some (L.get ⟨i, hi⟩ ++ R.get ⟨j, hj⟩) := by
  induction L with
  | nil => intro i j hi; simp at hi
  | cons l L ih =>
    intro i j hi hj
    have hsplit : cross_rows (l :: L) R = R.map (l ++ ·) ++ cross_rows L R := by
      simp [cross_rows, List.flatMap_cons]
    rw [hsplit, List.get?_eq_getElem?]
    cases i with
    | zero =>
      have hj2 : 0 * R.length + j < (R.map (l ++ ·)).length := by simpa using hj
      rw [List.getElem?_append_left hj2]
      simp [List.getElem?_eq_getElem hj2, List.get_eq_getElem]
    | succ i =>
      have harith : (i + 1) * R.length + j = (R.map (l ++ ·)).length + (i * R.length + j) := by
        simp [List.length_map]
        ring
      rw [harith, List.getElem?_append_right (by omega)]
      have : (R.map (l ++ ·)).length + (i * R.length + j) - (R.map (l ++ ·)).length
          = i * R.length + j := by omega
      rw [this, ← List.get?_eq_getElem?]
      have hi2 : i < L.length := by simpa using hi
      rw [ih i j hi2 hj]
      simp [List.get_eq_getElem]

theorem psplit_ne_nil (p : Char → Bool) (s : Str) : psplit p s ≠ [] := by
  cases s with
  | nil => simp [psplit]
  | cons c rest =>
    simp only [psplit]
    cases h : psplit p rest with
    | nil => simp
    | cons a t => by_cases hc : p c <;> simp [hc]

theorem psplit_no_sep (p : Char → Bool) :
    ∀ s : Str, (∀ x ∈ s, p x = false) → psplit p s = [s] := by
  intro s
  induction s with
  | nil => simp [psplit]
  | cons c rest ih =>
    intro h
    have hc : p c = false := h c (by simp)
    have hrest := ih (fun x hx => h x (by simp [hx]))
    simp [psplit, hrest, hc]

theorem psplit_append_sep (p : Char → Bool) (sep : Char) (hp : p sep = true) (ys : Str) :
    ∀ xs : Str, psplit p (xs ++ sep :: ys) = psplit p xs ++ psplit p ys := by
  intro xs
  induction xs with
  | nil =>
    simp only [List.nil_append]
    cases h : psplit p ys with
    | nil => exact absurd h (psplit_ne_nil p ys)
    | cons a t => simp [psplit, h, hp]
  | cons c xs ih =>
    have step : ∀ s : Str, psplit p (c :: s) = match psplit p s with
        | [] => [[c]]
        | h :: t => if p c then [] :: h :: t else (c :: h) :: t := fun s => by
      simp only [psplit]
    rw [List.cons_append, step, ih, step]
    cases h : psplit p xs with
    | nil => exact absurd h (psplit_ne_nil p xs)
    | cons a t => by_cases hc : p c <;> simp [hc]

theorem getLastD_of_ne_nil {α} {l : List α} (h : l ≠ []) (d₁ d₂ : α) :
    l.getLastD d₁ = l.getLastD d₂ := by
  cases l with
  | nil => exact absurd rfl h
  | cons a t => simp [List.getLastD]

theorem getLastD_append_right {α} (l₁ : List α) {l₂ : List α} (h : l₂ ≠ []) (d : α) :
    (l₁ ++ l₂).getLastD d = l₂.getLastD d := by
  induction l₁ generalizing d with
  | nil => simp
  | cons a t ih =>
    have hne : t ++ l₂ ≠ [] := by
      simp only [ne_eq, List.append_eq_nil]
      rintro ⟨-, rfl⟩
      exact h rfl
    calc (a :: t ++ l₂).getLastD d
        = (t ++ l₂).getLastD a := by
          cases ht : t ++ l₂ with
          | nil => exact absurd ht hne
          | cons b u => simp [List.cons_append, ht, List.getLastD]
      _ = (t ++ l₂).getLastD d := getLastD_of_ne_nil hne a d
      _ = l₂.getLastD d := ih d

/-! ## Claim theorems -/

/-- C3: For every pair of relations `A` and `B`, the cross product built by
`Fileread.py` has attribute sequence `A.attributes ++ B.attributes` (so its
length is `|A.attrs| + |B.attrs|`), `|A.rows| * |B.rows|` data rows, and the
row at position `i * |B.rows| + j` is `A.rows[i] ++ B.rows[j]` - the full
Cartesian product with the left row varying slowest. -/
theorem crossproduct_shape_and_order (A B : DBRel) :
    (Fileread.crossproduct_core A B).headD [] = A.attributes ++ B.attributes
    ∧ ((Fileread.crossproduct_core A B).headD []).length
        = A.attributes.length + B.attributes.length
    ∧ (Fileread.crossproduct_core A B).tail.length = A.data.length * B.data.length
    ∧ ∀ (i j : Nat) (hi : i < A.data.length) (hj : j < B.data.length),
        (Fileread.crossproduct_core A B).tail.get? (i * B.data.length + j)
          = some (A.data.get ⟨i, hi⟩ ++ B.data.get ⟨j, hj⟩) := by
  refine ⟨rfl, by simp [Fileread.crossproduct_core], ?_, ?_⟩
  · simpa [Fileread.crossproduct_core] using cross_rows_length A.data B.data
  · intro i j hi hj
    simpa [Fileread.crossproduct_core] using cross_rows_get A.data B.data i j hi hj

/-- Witness for C3: the cross product of `EMP` (2 rows) and `DEPT` (1 row)
at `(i, j) = (1, 0)` yields `EMP.rows[1] ++ DEPT.rows[0]`. -/
theorem crossproduct_shape_and_order_witness :
    (1 : Nat) < relEMP.data.length ∧ (0 : Nat) < relDEPT.data.length
    ∧ (Fileread.crossproduct_core relEMP relDEPT).tail.get? (1 * relDEPT.data.length + 0)
        = some (relEMP.data.get ⟨1, by decide⟩ ++ relDEPT.data.get ⟨0, by decide⟩) :=
  ⟨by decide, by decide,
   (crossproduct_shape_and_order relEMP relDEPT).2.2.2 1 0 (by decide) (by decide)⟩

/-- C4: `Fileread.py`'s union of two operand relations fails when the two
attribute sequences are not identical, and otherwise returns the shared
attribute sequence as header and, as rows, exactly the set union of the two
operands' row-sets with duplicates removed (the embedding fixes a
deterministic order for Python's unordered `set`; only set-level facts are
stated). -/
theorem union_schema_check_and_dedup (A B : DBRel) :
    (A.attributes ≠ B.attributes →
      Fileread.union_core A B
        = .error (str "Union requires both relations to have the same attributes."))
    ∧ (A.attributes = B.attributes →
      ∃ rows, Fileread.union_core A B = .ok (A.attributes :: rows)
        ∧ rows.Nodup
        ∧ ∀ r, r ∈ rows ↔ (r ∈ A.data ∨ r ∈ B.data)) := by
  constructor
  · intro h
    simp [Fileread.union_core, h]
  · intro h
    refine ⟨(A.data ++ B.data).dedup, ?_, List.nodup_dedup _, fun r => ?_⟩
    · simp [Fileread.union_core, h]
    · simp [List.mem_dedup, List.mem_append]

/-- Witness for C4: `union(EMP, EMP)` keeps `EMP`'s header and its row-set,
deduplicated. -/
theorem union_schema_check_and_dedup_witness :
    relEMP.attributes = relEMP.attributes
    ∧ ∃ rows, Fileread.union_core relEMP relEMP = .ok (relEMP.attributes :: rows)
        ∧ rows.Nodup
        ∧ ∀ r, r ∈ rows ↔ (r ∈ relEMP.data ∨ r ∈ relEMP.data) :=
  ⟨rfl, (union_schema_check_and_dedup relEMP relEMP).2 rfl⟩

/-- C5: for operand tables with headers of the same width, the difference of
`Fileread.py` keeps the left header and returns rows drawn from the left
row-set and disjoint from the right row-set; the self-difference is the bare
header (zero rows), and an empty computed set still carries the header. -/
theorem difference_subset_disjoint_header (lh rh : List Str) (ld rd : Table)
    (hlen : lh.length = rh.length) :
    (∃ rows, Fileread.difference_eval (some (lh :: ld)) (some (rh :: rd))
        = .ok (some (lh :: rows))
      ∧ ∀ r ∈ rows, r ∈ ld ∧ r ∉ rd)
    ∧ Fileread.difference_eval (some (lh :: ld)) (some (lh :: ld)) = .ok (some [lh]) := by
  have collapse : ∀ d : Table,
      (if d.isEmpty then (Except.ok (some [lh]) : Except Str (Option Table))
       else .ok (some (lh :: d))) = .ok (some (lh :: d)) := by
    intro d
    cases d <;> simp
  constructor
  · refine ⟨ld.dedup.filter (fun row => decide (row ∉ rd)), ?_, ?_⟩
    · simp only [Fileread.difference_eval]
      rw [if_neg (by omega)]
      exact collapse _
    · intro r hr
      simp only [List.mem_filter, List.mem_dedup, decide_eq_true_eq] at hr
      exact hr
  · have hnil : ld.dedup.filter (fun row => decide (row ∉ ld)) = [] := by
      rw [List.filter_eq_nil_iff]
      intro a ha
      simp [List.mem_dedup.mp ha]
    simp only [Fileread.difference_eval]
    rw [if_neg (by omega)]
    simp [hnil]

/-- Witness for C5: differencing the `EMP` table with itself yields the bare
header, and a difference against `DEPT`-shaped rows stays inside the left
rows. -/
theorem difference_subset_disjoint_header_witness :
    (relEMP.attributes.length = relEMP.attributes.length)
    ∧ Fileread.difference_eval (some (relEMP.attributes :: relEMP.data))
        (some (relEMP.attributes :: relEMP.data)) = .ok (some [relEMP.attributes]) :=
  ⟨rfl, (difference_subset_disjoint_header relEMP.attributes relEMP.attributes
    relEMP.data relEMP.data rfl).2⟩

/-- C10: `newonetest.py`'s union merge is deterministic: the result is the
left operand's rows unchanged (duplicates included) followed by those right
rows that do not occur among the left rows, in their original order; the
counting identity shows duplicates inside a single operand survive.  The
merge compares rows only - no attribute schema exists at this point, so no
schema check is performed. -/
theorem newonetest_union_order_and_duplicates (l r : Table) :
    (Newonetest.union_merge l r).take l.length = l
    ∧ (Newonetest.union_merge l r).drop l.length
        = r.filter (fun row => decide (row ∉ l))
    ∧ ∀ x : List Str, (Newonetest.union_merge l r).count x
        = l.count x + if x ∈ l then 0 else r.count x := by
  unfold Newonetest.union_merge
  refine ⟨List.take_left l _, List.drop_left l _, fun x => ?_⟩
  rw [List.count_append]
  congr 1
  by_cases hx : x ∈ l
  · rw [if_pos hx, List.count_eq_zero]
    simp [List.mem_filter, hx]
  · rw [if_neg hx, List.count_filter (by simp [hx])]

/-- C2: in `Fileread.py`, however a compound condition was parsed - split on
`AND` or split on `OR` - a row is kept exactly when **every** (nonempty)
parsed predicate evaluates to true: `evaluate_conditions` returns
`all(results)` unconditionally, so `OR` separators still get conjunctive
semantics. -/
theorem selection_condition_combinator_always_conjunctive
    (db : DB) (row : List Str) (s : Str) (b : Bool)
    (h : Fileread.evaluate_conditions db row (Fileread.parse_conditions s) = some b) :
    b = true ↔ ∀ c ∈ Fileread.parse_conditions s, c ≠ [] →
      Fileread.eval_one db row c = some true :=
  evaluate_conditions_all h

/-- Witness for C2: an `OR`-combined condition whose first predicate fails on
the row evaluates to `False` - the row is dropped even though one `OR`
disjunct holds. -/
theorem selection_condition_combinator_always_conjunctive_witness :
    Fileread.evaluate_conditions dbMain [str "1", str "Al", str "50"]
      (Fileread.parse_conditions (str "name = Zed OR id = 1")) = some false
    ∧ ((false = true) ↔ ∀ c ∈ Fileread.parse_conditions (str "name = Zed OR id = 1"),
        c ≠ [] → Fileread.eval_one dbMain [str "1", str "Al", str "50"] c = some true) :=
  ⟨by decide,
   selection_condition_combinator_always_conjunctive dbMain
     [str "1", str "Al", str "50"] (str "name = Zed OR id = 1") false (by decide)⟩

/-- C6: whenever `Fileread.py`'s selection succeeds, it acted as a filter:
the result is the source relation's unchanged attribute header followed by a
sublist of the source rows (so order is preserved and the count is bounded by
the source count), and every kept row satisfies every parsed predicate of the
condition. -/
theorem selection_is_filter (db : DB) (q : Str) (res : Table)
    (h : Fileread.selection db q = .ok res) :
    ∃ rel cond rows,
      lookup db (extract_operand q) = some rel
      ∧ extract_braces q = some cond
      ∧ res = rel.attributes :: rows
      ∧ rows.Sublist rel.data
      ∧ rows.length ≤ rel.data.length
      ∧ ∀ r ∈ rows, Fileread.evaluate_conditions db r
          (Fileread.parse_conditions cond) = some true := by
  simp only [Fileread.selection] at h
  cases hb : extract_braces q with
  | none =>
    simp only [hb] at h
    exact Except.noConfusion h
  | some cond =>
    simp only [hb] at h
    cases hl : lookup db (extract_operand q) with
    | none =>
      simp only [hl] at h
      exact Except.noConfusion h
    | some rel =>
      simp only [hl] at h
      cases hf : filterOpt (fun row => Fileread.evaluate_conditions db row
          (Fileread.parse_conditions cond)) rel.data with
      | none =>
        simp only [hf] at h
        exact Except.noConfusion h
      | some rows =>
        simp only [hf, Except.ok.injEq] at h
        exact ⟨rel, cond, rows, rfl, rfl, h.symm, filterOpt_sublist hf,
          (filterOpt_sublist hf).length_le, filterOpt_mem hf⟩

/-- Witness for C6: `SELE (EMP) {name = Bo}` succeeds and the theorem's
filter decomposition applies to it. -/
theorem selection_is_filter_witness :
    Fileread.selection dbMain (str "SELE (EMP) {name = Bo}")
      = .ok [relEMP.attributes, [str "2", str "Bo", str "90"]]
    ∧ ∃ rel cond rows,
      lookup dbMain (extract_operand (str "SELE (EMP) {name = Bo}")) = some rel
      ∧ extract_braces (str "SELE (EMP) {name = Bo}") = some cond
      ∧ [relEMP.attributes, [str "2", str "Bo", str "90"]] = rel.attributes :: rows
      ∧ rows.Sublist rel.data
      ∧ rows.length ≤ rel.data.length
      ∧ ∀ r ∈ rows, Fileread.evaluate_conditions dbMain r
          (Fileread.parse_conditions cond) = some true :=
  ⟨rfl,
   selection_is_filter dbMain (str "SELE (EMP) {name = Bo}")
     [relEMP.attributes, [str "2", str "Bo", str "90"]] rfl⟩

/-- C9: `evaluate_condition` returns `False` (without raising) for every
operator string other than `>`, `<`, `=`; consequently a `newonetest.py`
selection whose parsed operator token is unrecognized succeeds with zero
rows instead of reporting an error (given rows wide enough for the resolved
column, which is the loader's arity invariant). -/
theorem unknown_operator_yields_false_and_empty :
    (∀ v op c : Str, op ∉ ([str ">", str "<", str "="] : List Str) →
      evaluate_condition v op c = some false)
    ∧ ∀ (db : DB) (q : Str) (rel : DBRel) (cond a op v : Str),
        lookup db (extract_operand q) = some rel →
        extract_braces q = some cond →
        wsplit cond = [a, op, v] →
        a ∈ rel.attributes →
        op ∉ ([str ">", str "<", str "="] : List Str) →
        (∀ r ∈ rel.data, rel.attributes.indexOf a < r.length) →
        Newonetest.selection db q = .ok [] := by
  have part1 : ∀ v op c : Str, op ∉ ([str ">", str "<", str "="] : List Str) →
      evaluate_condition v op c = some false := by
    intro v op c hop
    have h1 : op ≠ str ">" := by intro e; exact hop (by simp [e])
    have h2 : op ≠ str "<" := by intro e; exact hop (by simp [e])
    have h3 : op ≠ str "=" := by intro e; exact hop (by simp [e])
    simp [evaluate_condition, h1, h2, h3]
  refine ⟨part1, ?_⟩
  intro db q rel cond a op v hl hb hw ha hop hlen
  have hfilter : filterOpt (fun row =>
      match row.get? (rel.attributes.indexOf a) with
      | none => none
      | some cell => evaluate_condition cell op (stripQuotes v)) rel.data = some [] := by
    apply filterOpt_all_false
    intro r hr
    rw [List.get?_eq_get (hlen r hr)]
    exact part1 _ _ _ hop
  simp only [Newonetest.selection, hb, hl, hw]
  rw [if_pos ha, hfilter]

/-- Witness for C9: the unrecognized operator token `!=` yields `False` on
equal values, and the selection `SELE (A) {x != v}` returns zero rows. -/
theorem unknown_operator_yields_false_and_empty_witness :
    evaluate_condition (str "v") (str "!=") (str "v") = some false
    ∧ Newonetest.selection dbXY (str "SELE (A) {x != v}") = .ok [] :=
  ⟨unknown_operator_yields_false_and_empty.1 (str "v") (str "!=") (str "v") (by decide),
   unknown_operator_yields_false_and_empty.2 dbXY (str "SELE (A) {x != v}") relX
     (str "x != v") (str "x") (str "!=") (str "v")
     (by decide) (by decide) (by decide) (by decide) (by decide) (by decide)⟩

/-- C7: both batch drivers are total functions of the query lines - no line
can abort the batch - and the report list has exactly one entry per input
line, carrying that (stripped) line's text, in input order; processing a
batch is the concatenation of processing its parts, so a failing line leaves
the remaining lines processed. -/
theorem process_queries_one_entry_per_line (fuel : Nat) (db : DB)
    (lines lines2 : List Str) :
    (Fileread.process_queries fuel db lines).length = lines.length
    ∧ (Fileread.process_queries fuel db lines).map Prod.fst = lines.map trim
    ∧ Fileread.process_queries fuel db (lines ++ lines2)
        = Fileread.process_queries fuel db lines ++ Fileread.process_queries fuel db lines2
    ∧ (Newonetest.process_queries fuel db lines).length = lines.length
    ∧ (Newonetest.process_queries fuel db lines).map Prod.fst = lines.map trim
    ∧ Newonetest.process_queries fuel db (lines ++ lines2)
        = Newonetest.process_queries fuel db lines
            ++ Newonetest.process_queries fuel db lines2 := by
  unfold Fileread.process_queries Newonetest.process_queries
  refine ⟨by simp, ?_, by simp, by simp, ?_, by simp⟩
  · rw [List.map_map]
    rfl
  · rw [List.map_map]
    rfl

/-- C1 counterexample: the condition attribute `y` is absent from the source
relation `A = relX` (whose only attribute is `x`), yet `Fileread.py`'s
selection does **not** fail: `get_attribute_index` resolves `y` against the
other stored relation `B = relY` and the query returns rows. -/
theorem fileread_selection_uses_foreign_attribute :
    (str "y") ∉ relX.attributes
    ∧ Fileread.get_attribute_index dbXY (str "y") = some 0
    ∧ Fileread.selection dbXY (str "SELE (A) {y = v}") = .ok [[str "x"], [str "v"]] :=
  ⟨by decide, by decide, rfl⟩

/-- C1 (amended): only `newonetest.py`'s selection resolves the condition
attribute against the source relation's own attribute list (failing when it
is absent there); `Fileread.py`'s selection resolves it by scanning **all**
stored relations in insertion order, and fails only when the attribute is
absent from every stored relation. -/
theorem selection_attribute_resolution_amended :
    (∀ (db : DB) (q : Str) (rel : DBRel) (cond a op v : Str),
        lookup db (extract_operand q) = some rel →
        extract_braces q = some cond →
        wsplit cond = [a, op, v] →
        a ∉ rel.attributes →
        Newonetest.selection db q = .error (str "Attribute not found in relation."))
    ∧ ∀ (db : DB) (attr : Str),
        Fileread.get_attribute_index db attr = none
          ↔ ∀ p ∈ db, attr ∉ p.2.attributes := by
  constructor
  · intro db q rel cond a op v hl hb hw ha
    simp only [Newonetest.selection, hb, hl, hw]
    rw [if_neg ha]
  · intro db attr
    induction db with
    | nil => simp [Fileread.get_attribute_index]
    | cons p rest ih =>
      cases p with
      | mk n rel =>
        simp only [Fileread.get_attribute_index, List.forall_mem_cons]
        by_cases h : attr ∈ rel.attributes
        · rw [if_pos h]
          simp [h]
        · rw [if_neg h]
          simp [h, ih]

/-- Witness for the amended C1: `newonetest.py` rejects the foreign
attribute `y` on relation `A`, and `Fileread.py`'s scan fails for an
attribute stored nowhere. -/
theorem selection_attribute_resolution_amended_witness :
    Newonetest.selection dbXY (str "SELE (A) {y = v}")
      = .error (str "Attribute not found in relation.")
    ∧ (Fileread.get_attribute_index dbXY (str "z") = none
        ↔ ∀ p ∈ dbXY, (str "z") ∉ p.2.attributes) :=
  ⟨selection_attribute_resolution_amended.1 dbXY (str "SELE (A) {y = v}") relX
     (str "y = v") (str "y") (str "=") (str "v")
     (by decide) (by decide) (by decide) (by decide),
   selection_attribute_resolution_amended.2 dbXY (str "z")⟩

/-- C8 counterexample: on the nested line
`PROJ (SELE (EMP) {salary > 60}) {name}` the source extracts `EMP` - the
text between the **last** `(` and the first `)` after it - whereas the
substring between the first `(` and the last `)` of the line is
`SELE (EMP) {salary > 60}`; the two disagree. -/
theorem operand_extraction_not_first_to_last :
    extract_operand (str "PROJ (SELE (EMP) {salary > 60}) {name}") = str "EMP"
    ∧ spec_first_to_last (str "PROJ (SELE (EMP) {salary > 60}) {name}")
        = str "SELE (EMP) {salary > 60}"
    ∧ extract_operand (str "PROJ (SELE (EMP) {salary > 60}) {name}")
        ≠ trim (spec_first_to_last (str "PROJ (SELE (EMP) {salary > 60}) {name}")) :=
  ⟨by decide, by decide, by decide⟩

/-- C8 (amended): for every Select/Project/CrossProduct/Union line, the
operand portion extracted by `split('(')[-1].split(')')[0].strip()` is the
stripped text between the **last** `(` of the line and the first `)` that
follows it; for a nested query this is the innermost parenthesized text, not
the span from the first `(` to the last `)`. -/
theorem operand_extraction_last_open_first_close (a b c : Str)
    (hb1 : '(' ∉ b) (hb2 : ')' ∉ b) (hc : '(' ∉ c) :
    extract_operand (a ++ '(' :: (b ++ ')' :: c)) = trim b := by
  have hopen : psplit (fun x => x == '(') (a ++ '(' :: (b ++ ')' :: c))
      = psplit (fun x => x == '(') a ++ psplit (fun x => x == '(') (b ++ ')' :: c) :=
    psplit_append_sep _ '(' (by simp) _ a
  have hnosep : psplit (fun x => x == '(') (b ++ ')' :: c) = [b ++ ')' :: c] := by
    apply psplit_no_sep
    intro x hx
    rcases List.mem_append.mp hx with h | h
    · exact beq_eq_false_iff_ne.mpr (fun e => hb1 (e ▸ h))
    · rcases List.mem_cons.mp h with rfl | h2
      · decide
      · exact beq_eq_false_iff_ne.mpr (fun e => hc (e ▸ h2))
  have hclose : psplit (fun x => x == ')') (b ++ ')' :: c)
      = psplit (fun x => x == ')') b ++ psplit (fun x => x == ')') c :=
    psplit_append_sep _ ')' (by simp) _ b
  have hbonly : psplit (fun x => x == ')') b = [b] := by
    apply psplit_no_sep
    intro x hx
    exact beq_eq_false_iff_ne.mpr (fun e => hb2 (e ▸ hx))
  have hlast : ([b ++ ')' :: c] : List Str).getLastD [] = b ++ ')' :: c := rfl
  unfold extract_operand pysplit
  rw [hopen, hnosep, getLastD_append_right _ (by simp) _, hlast, hclose, hbonly]
  rfl

/-- Witness for the amended C8 on `PROJ (EMP) {name}`: the extracted operand
is the text `EMP` between its only parenthesis pair. -/
theorem operand_extraction_last_open_first_close_witness :
    ('(' ∉ str "EMP") ∧ (')' ∉ str "EMP") ∧ ('(' ∉ str " {name}")
    ∧ extract_operand (str "PROJ " ++ '(' :: (str "EMP" ++ ')' :: str " {name}"))
        = trim (str "EMP") :=
  ⟨by decide, by decide, by decide,
   operand_extraction_last_open_first_close (str "PROJ ") (str "EMP") (str " {name}")
     (by decide) (by decide) (by decide)⟩
